import Mathlib

/-!
# A verification model of `leaderboard.go` (kamronbatman/go-leaderboard)

The Go library stores one leaderboard per Redis sorted-set key and answers
rank queries with the Redis commands ZADD, ZREM, ZREVRANK, ZSCORE, ZCARD,
ZCOUNT, ZREVRANGE and FLUSHALL.  This file gives a pure shallow embedding:

* a Redis sorted set is a finite set of member ids with a score map
  (`ZSet`); the backend is a map from key names to sorted sets (`Backend`);
* each Redis command used by the code is a pure function on `ZSet`,
  following the documented Redis semantics.  In particular the ZREVRANGE /
  ZREVRANK order is: score descending, and for equal scores the member
  *string* descending under bytewise (memcmp) comparison.  Member ids are
  uint64 values that the redigo client formats in decimal, so the string
  comparison is lexicographic comparison of big-endian decimal digit
  lists, which `decKey` computes;
* the Go functions of `leaderboard.go` are translated one by one, keeping
  their names.  The model assumes the backend is reachable (connection
  handling is out of scope); the only redigo errors that remain are the
  `redis.ErrNil` errors produced by nil replies for absent members, which
  the Go code swallows by substituting 0 (`redisRankInt`, `redisScoreInt`).
  A function that can hit a Go runtime panic (out-of-range slice index,
  `make` with negative length) returns `Option`, with `none` marking the
  panic;
* `TotalPages` and `GetMemberByRank` compute page numbers through
  `int(math.Ceil(float64(x) / float64(y)))`.  The binary64 arithmetic is
  modelled exactly (`fl64`, `divRnd53`, `goCeilDiv`) for nonnegative
  operands and positive divisors in the normal range, which covers every
  state reachable here; for `y ≤ 0` the Go expression goes through IEEE
  Inf/NaN and is outside the model (no theorem relies on it).
-/

namespace GoLeaderboard

/-! ## Decimal member keys

Redis compares members of equal score bytewise (memcmp on the sds strings).
redigo sends a uint64 player id as its decimal representation without
leading zeros, so for two distinct ids the bytewise comparison is the
lexicographic comparison of their big-endian digit lists.  (`dig 0 = []`
rather than `[0]`; the empty list is lexicographically below every other
key, exactly as the one-character string "0" is below every other decimal
rendering, so the induced order on ids is the same.) -/

/-- Little-endian decimal digits, with explicit fuel so that concrete
evaluation reduces inside the kernel. -/
def digAux : Nat → Nat → List Nat
  | 0, _ => []
  | fuel + 1, n => if n = 0 then [] else n % 10 :: digAux fuel (n / 10)

/-- Little-endian decimal digits of `n`. -/
def dig (n : Nat) : List Nat := digAux n n

/-- Big-endian decimal digit list of a member id: the memcmp key Redis
compares on ties. -/
def decKey (n : Nat) : List Nat := (dig n).reverse

/-- Bytewise (lexicographic) order on the decimal renderings of two ids. -/
def decKeyLt (a b : Nat) : Prop := List.Lex (· < ·) (decKey a) (decKey b)

instance : DecidableRel decKeyLt := fun a b =>
  inferInstanceAs (Decidable (List.Lex (· < ·) (decKey a) (decKey b)))

theorem digAux_eq_digits (fuel : Nat) : ∀ n : Nat, n ≤ fuel → digAux fuel n = Nat.digits 10 n := by
  induction fuel with
  | zero =>
    intro n hn
    interval_cases n
    simp [digAux]
  | succ f ih =>
    intro n hn
    by_cases h0 : n = 0
    · simp [digAux, h0]
    · have hdiv : n / 10 ≤ f := by
        have : n / 10 < n := Nat.div_lt_self (Nat.pos_of_ne_zero h0) (by norm_num)
        omega
      rw [digAux, if_neg h0, ih _ hdiv, Nat.digits_def' (by norm_num : 1 < 10) (Nat.pos_of_ne_zero h0)]

theorem dig_eq_digits (n : Nat) : dig n = Nat.digits 10 n := digAux_eq_digits n n le_rfl

theorem decKey_injective : Function.Injective decKey := by
  intro a b h
  have h2 : dig a = dig b := by
    have := congrArg List.reverse h
    simpa [decKey] using this
  rw [dig_eq_digits, dig_eq_digits] at h2
  exact Nat.digits.injective 10 h2

theorem decKeyLt_asymm {a b : Nat} (h : decKeyLt a b) : ¬ decKeyLt b a :=
  (List.Lex.isAsymm (· < ·)).asymm _ _ h

theorem decKeyLt_trans {a b c : Nat} (h1 : decKeyLt a b) (h2 : decKeyLt b c) : decKeyLt a c :=
  ((List.Lex.isStrictTotalOrder (α := Nat) (· < ·)).toIsTrans).trans _ _ _ h1 h2

theorem decKeyLt_total {a b : Nat} (h : a ≠ b) : decKeyLt a b ∨ decKeyLt b a := by
  rcases (List.Lex.isTrichotomous (α := Nat) (· < ·)).trichotomous (decKey a) (decKey b) with h1 | h1 | h1
  · exact Or.inl h1
  · exact absurd (decKey_injective h1) h
  · exact Or.inr h1

theorem decKeyLt_irrefl (a : Nat) : ¬ decKeyLt a a := fun h => decKeyLt_asymm h h

/-! ## The Redis sorted set and the commands the Go code issues -/

/-- One Redis sorted set: a finite set of member ids with their scores.
The score map is total; only its values on `members` are ever observable. -/
structure ZSet where
  members : Finset Nat
  score : Nat → Int

/-- The empty sorted set (a key that does not exist). -/
def ZSet.empty : ZSet := ⟨∅, fun _ => 0⟩

/-- The whole backend: every key name holds a (possibly empty) sorted set. -/
abbrev Backend := String → ZSet

/-- `revBefore z a b`: member `a` comes strictly before member `b` in
ZREVRANGE order — higher score first, and on equal scores the
lexicographically larger decimal member string first. -/
def revBefore (z : ZSet) (a b : Nat) : Prop :=
  z.score b < z.score a ∨ (z.score a = z.score b ∧ decKeyLt b a)

instance (z : ZSet) : DecidableRel (revBefore z) := fun a b =>
  inferInstanceAs (Decidable (_ ∨ _))

/-- 0-based ZREVRANK of a member: how many stored members come strictly
before it. -/
def rankCount (z : ZSet) (m : Nat) : Nat :=
  (z.members.filter (fun a => revBefore z a m)).card

/-- ZREVRANK: nil reply (`none`) when the member is absent. -/
def zrevrank (z : ZSet) (m : Nat) : Option Nat :=
  if m ∈ z.members then some (rankCount z m) else none

/-- ZSCORE: nil reply (`none`) when the member is absent. -/
def zscore (z : ZSet) (m : Nat) : Option Int :=
  if m ∈ z.members then some (z.score m) else none

/-- ZCARD (and ZCOUNT key -inf +inf, which counts every member). -/
def zcard (z : ZSet) : Nat := z.members.card

/-- ZADD: upsert one member, replacing any previous score. -/
def zadd (z : ZSet) (m : Nat) (s : Int) : ZSet :=
  ⟨insert m z.members, Function.update z.score m s⟩

/-- ZREM of a single member; removing an absent member is a no-op. -/
def zrem (z : ZSet) (m : Nat) : ZSet :=
  ⟨z.members.erase m, z.score⟩

theorem revBefore_irrefl (z : ZSet) (a : Nat) : ¬ revBefore z a a := by
  rintro (h | ⟨-, h⟩)
  · exact lt_irrefl _ h
  · exact decKeyLt_irrefl a h

theorem revBefore_trans (z : ZSet) {a b c : Nat} (h1 : revBefore z a b) (h2 : revBefore z b c) :
    revBefore z a c := by
  rcases h1 with h1 | ⟨h1, h1k⟩ <;> rcases h2 with h2 | ⟨h2, h2k⟩
  · exact Or.inl (lt_trans h2 h1)
  · exact Or.inl (h2 ▸ h1)
  · exact Or.inl (h1 ▸ h2)
  · exact Or.inr ⟨h1.trans h2, decKeyLt_trans h2k h1k⟩

theorem revBefore_asymm (z : ZSet) {a b : Nat} (h : revBefore z a b) : ¬ revBefore z b a :=
  fun h2 => revBefore_irrefl z a (revBefore_trans z h h2)

theorem revBefore_total (z : ZSet) {a b : Nat} (h : a ≠ b) :
    revBefore z a b ∨ revBefore z b a := by
  rcases lt_trichotomy (z.score a) (z.score b) with hs | hs | hs
  · exact Or.inr (Or.inl hs)
  · rcases decKeyLt_total h with hk | hk
    · exact Or.inr (Or.inr ⟨hs.symm, hk⟩)
    · exact Or.inl (Or.inr ⟨hs, hk⟩)
  · exact Or.inl (Or.inl hs)

/-- Non-strict version of `revBefore`, used to sort the member list. -/
def revLe (z : ZSet) (a b : Nat) : Prop := revBefore z a b ∨ a = b

instance (z : ZSet) : DecidableRel (revLe z) := fun a b =>
  inferInstanceAs (Decidable (_ ∨ _))

instance (z : ZSet) : IsTrans Nat (revLe z) where
  trans a b c h1 h2 := by
    rcases h1 with h1 | rfl
    · rcases h2 with h2 | rfl
      · exact Or.inl (revBefore_trans z h1 h2)
      · exact Or.inl h1
    · exact h2

instance (z : ZSet) : IsAntisymm Nat (revLe z) where
  antisymm a b h1 h2 := by
    rcases h1 with h1 | rfl
    · rcases h2 with h2 | rfl
      · exact absurd h2 (revBefore_asymm z h1)
      · rfl
    · rfl

instance (z : ZSet) : IsTotal Nat (revLe z) where
  total a b := by
    by_cases h : a = b
    · exact Or.inl (Or.inr h)
    · rcases revBefore_total z h with h2 | h2
      · exact Or.inl (Or.inl h2)
      · exact Or.inr (Or.inl h2)

/-- All members in ZREVRANGE order (score descending, decimal member string
descending on ties).  Defined by insertion sort on any representative of
the member multiset; well-defined because `revLe` is total, transitive and
antisymmetric, so permutations sort to the same list. -/
def zlist (z : ZSet) : List Nat :=
  Quot.liftOn z.members.val (fun l => List.insertionSort (revLe z) l) (fun l1 l2 h =>
    List.eq_of_perm_of_sorted
      (((List.perm_insertionSort _ l1).trans h).trans (List.perm_insertionSort _ l2).symm)
      (List.sorted_insertionSort _ l1) (List.sorted_insertionSort _ l2))

/-- Redis range-index semantics shared by ZREVRANGE: negative indices count
from the end, the start is clamped at 0 and the stop at the last element,
and an inverted or out-of-range window yields an empty reply. -/
def redisSlice (L : List Nat) (start stop : Int) : List Nat :=
  let n : Int := L.length
  let s : Int := if start < 0 then max (n + start) 0 else start
  let e : Int := if stop < 0 then n + stop else stop
  if s > e ∨ n ≤ s then []
  else List.take (e.toNat + 1 - s.toNat) (List.drop s.toNat L)

/-- ZREVRANGE key start stop: the members of the window, best rank first. -/
def zrevrange (z : ZSet) (start stop : Int) : List Nat :=
  redisSlice (zlist z) start stop

/-! ## The binary64 page arithmetic

`TotalPages` and `GetMemberByRank` compute
`int(math.Ceil(float64(x) / float64(y)))`.  `fl64 n` is the exact value of
`float64(n)` for a natural `n` (round to 53 significant bits, to nearest,
ties to even).  `divRnd53 a b` is the correctly rounded binary64 quotient
of the exact naturals `a / b` (`1 ≤ b`), returned as a dyadic pair
`(m, s)` of value `m / 2 ^ s`; it assumes the quotient is zero or in the
normal binary64 range, which holds for every use below. -/

/-- Smallest `k` with `n / 2 ^ k < 2 ^ 53`, by fuel recursion. -/
def flShiftAux : Nat → Nat → Nat
  | 0, _ => 0
  | fuel + 1, n => if n < 2 ^ 53 then 0 else flShiftAux fuel (n / 2) + 1

/-- The exact value of `float64(n)` for a natural number `n`. -/
def fl64 (n : Nat) : Nat :=
  if n < 2 ^ 53 then n
  else
    let k := flShiftAux n n
    let q := n / 2 ^ k
    let r := n % 2 ^ k
    let q2 := if 2 ^ k < 2 * r ∨ (2 * r = 2 ^ k ∧ q % 2 = 1) then q + 1 else q
    q2 * 2 ^ k

/-- Integer rounding of `A / B` to nearest, ties to even (`1 ≤ B`). -/
def rneDiv (A B : Nat) : Nat :=
  let q := A / B
  let r := A % B
  if B < 2 * r ∨ (2 * r = B ∧ q % 2 = 1) then q + 1 else q

/-- Largest `e` with `b * 2 ^ e ≤ a`, assuming `b ≤ a`, by fuel recursion. -/
def qexpUpAux : Nat → Nat → Nat → Nat
  | 0, _, _ => 0
  | fuel + 1, a, b => if a < 2 * b then 0 else qexpUpAux fuel a (2 * b) + 1

/-- Least `k ≥ 1` with `b ≤ a * 2 ^ k`, assuming `0 < a < b`, by fuel
recursion. -/
def qexpDownAux : Nat → Nat → Nat → Nat
  | 0, _, _ => 0
  | fuel + 1, a, b => if b ≤ 2 * a then 1 else qexpDownAux fuel (2 * a) b + 1

/-- The correctly rounded binary64 quotient of `a / b` (`1 ≤ b`), as a
dyadic pair `(m, s)` of value `m / 2 ^ s`. -/
def divRnd53 (a b : Nat) : Nat × Nat :=
  if a = 0 then (0, 0)
  else if b ≤ a then
    let e := qexpUpAux a a b
    if 52 ≤ e then (rneDiv a (b * 2 ^ (e - 52)) * 2 ^ (e - 52), 0)
    else (rneDiv (a * 2 ^ (52 - e)) b, 52 - e)
  else
    let k := qexpDownAux b a b
    (rneDiv (a * 2 ^ (52 + k)) b, 52 + k)

/-- Ceiling of a dyadic pair. -/
def dyadicCeil : Nat × Nat → Nat
  | (m, s) => (m + (2 ^ s - 1)) / 2 ^ s

/-- Floor of a dyadic pair. -/
def dyadicFloor : Nat × Nat → Nat
  | (m, s) => m / 2 ^ s

/-- Model of Go `int(math.Ceil(float64(x) / float64(y)))` for `1 ≤ y`.
For a negative `x` the identity `Ceil(x/y) = -Floor(|x|/y)` is used;
binary64 rounding is sign-symmetric.  For `y ≤ 0` the Go expression goes
through IEEE Inf/NaN, outside this model; 0 is returned there and no
theorem below depends on that case. -/
def goCeilDiv (x y : Int) : Int :=
  if y ≤ 0 then 0
  else if 0 ≤ x then (dyadicCeil (divRnd53 (fl64 x.toNat) (fl64 y.toNat)) : Int)
  else -(dyadicFloor (divRnd53 (fl64 x.natAbs) (fl64 y.toNat)) : Int)

/-! ## The Go data model -/

/-- go: `type User struct { PlayerID uint64; Score int; Rank int }`.
The Go zero value is `{0, 0, 0}`. -/
structure User where
  PlayerID : Nat
  Score : Int
  Rank : Int
deriving DecidableEq

/-- The Go zero value `User{}`. -/
def User.zero : User := ⟨0, 0, 0⟩

/-- go: `type Leaderboard struct { ... Name string; PageSize int }`.
The connection settings are backend plumbing, out of the model's scope. -/
structure Leaderboard where
  Name : String
  PageSize : Int

/-- `redis.Int` applied to a ZREVRANK reply with the error discarded or
overwritten by 0: a nil reply (absent member) yields 0. -/
def redisRankInt (z : ZSet) (m : Nat) : Int :=
  match zrevrank z m with
  | some r => (r : Int)
  | none => 0

/-- `redis.Int` applied to a ZSCORE reply with the error path writing 0. -/
def redisScoreInt (z : ZSet) (m : Nat) : Int :=
  match zscore z m with
  | some s => s
  | none => 0

/-! ## The Go functions, one definition per function of `leaderboard.go` -/

/-- go: `getMembersByRange`.  Fetches the window with ZREVRANGE WITHSCORES,
allocates `make([]User, pageSize)`, fills one entry per fetched member
(rank from a fresh ZREVRANK call, plus 1) and returns the whole slice, so
unfilled trailing entries stay zero-valued.  `none` marks a Go runtime
panic: a negative `pageSize` (negative `make` length) or more fetched
members than `pageSize` (write past the end of the slice). -/
def getMembersByRange (b : Backend) (leaderboard : String) (pageSize startOffset endOffset : Int) :
    Option (List User) :=
  let z := b leaderboard
  let fetched := (zrevrange z startOffset endOffset).map (fun pid =>
    { PlayerID := pid, Score := z.score pid, Rank := redisRankInt z pid + 1 : User })
  if 0 ≤ pageSize ∧ fetched.length ≤ pageSize.toNat then
    some (fetched ++ List.replicate (pageSize.toNat - fetched.length) User.zero)
  else none

/-- go: `RankMember`.  ZADD then ZREVRANK on the stored member; with the
backend reachable the ZREVRANK of a just-added member cannot be nil, so
the error branch that would set `rank = -1` is dead.  Returns the reported
user and the updated backend. -/
def RankMember (b : Backend) (l : Leaderboard) (playerID : Nat) (score : Int) :
    User × Backend :=
  let b2 : Backend := Function.update b l.Name (zadd (b l.Name) playerID score)
  let rank : Int :=
    match zrevrank (b2 l.Name) playerID with
    | some r => (r : Int)
    | none => -1
  ({ PlayerID := playerID, Score := score, Rank := rank + 1 }, b2)

/-- go: `TotalMembers`: ZCARD (0 on a backend error, which the model
excludes). -/
def TotalMembers (b : Backend) (l : Leaderboard) : Int :=
  (zcard (b l.Name) : Int)

/-- go: `GetMember`.  ZREVRANK and ZSCORE with both errors swallowed:
an absent member yields `rank = 0` and `score = 0`, hence the returned
user is `{playerID, 0, 1}` — indistinguishable from a genuine rank-1
member with score 0.  No found flag or error is returned. -/
def GetMember (b : Backend) (l : Leaderboard) (playerID : Nat) : User :=
  let z := b l.Name
  { PlayerID := playerID, Score := redisScoreInt z playerID, Rank := redisRankInt z playerID + 1 }

/-- go: `RemoveMember`: snapshot via `GetMember`, then ZREM (a no-op for an
absent member).  The returned error is the ZREM error, always nil here. -/
def RemoveMember (b : Backend) (l : Leaderboard) (playerID : Nat) : User × Backend :=
  let nUser := GetMember b l playerID
  (nUser, Function.update b l.Name (zrem (b l.Name) playerID))

/-- go: `TotalPages`: `int(math.Ceil(float64(ZCOUNT key -inf +inf) / float64(l.PageSize)))`. -/
def TotalPages (b : Backend) (l : Leaderboard) : Int :=
  goCeilDiv (zcard (b l.Name) : Int) l.PageSize

/-- go: `GetRank`: ZREVRANK plus 1 with the error discarded, so an absent
member is reported as rank 1. -/
def GetRank (b : Backend) (l : Leaderboard) (playerID : Nat) : Int :=
  redisRankInt (b l.Name) playerID + 1

/-- go: `GetAroundMe`: the 1-based rank reported by `GetMember` is used
directly as a 0-based ZREVRANGE start offset (after subtracting
`PageSize / 2`, Go truncated division, and clamping at 0). -/
def GetAroundMe (b : Backend) (l : Leaderboard) (playerID : Nat) : Option (List User) :=
  let currentUser := GetMember b l playerID
  let startOffset0 := currentUser.Rank - Int.tdiv l.PageSize 2
  let startOffset := if startOffset0 < 0 then 0 else startOffset0
  getMembersByRange b l.Name l.PageSize startOffset (startOffset + l.PageSize - 1)

/-- go: `GetLeaders`: clamp the page into `[1, TotalPages]` (an empty board
has `TotalPages = 0`, so the page clamps to 0 and the offsets to `[0,
PageSize-1]`), then fetch the window. -/
def GetLeaders (b : Backend) (l : Leaderboard) (page : Int) : Option (List User) :=
  let page1 := if page < 1 then 1 else page
  let page2 := if page1 > TotalPages b l then TotalPages b l else page1
  let redisIndex := page2 - 1
  let startOffset0 := redisIndex * l.PageSize
  let startOffset := if startOffset0 < 0 then 0 else startOffset0
  getMembersByRange b l.Name l.PageSize startOffset (startOffset + l.PageSize - 1)

/-- go: `GetMemberByRank`.  Only `position <= TotalMembers()` is checked —
there is no `position < 1` guard. The within-page offset is Go `%`
(truncated, so negative for `position ≤ 0`), and `leaders[offset]` with an
out-of-range index is a Go runtime panic, modelled as `none`.  A rank
mismatch after the fetch, or `position > TotalMembers()`, returns the zero
value `User{}`. -/
def GetMemberByRank (b : Backend) (l : Leaderboard) (position : Int) : Option User :=
  if position ≤ TotalMembers b l then
    let currentPage := goCeilDiv position l.PageSize
    let offset := Int.tmod (position - 1) l.PageSize
    match GetLeaders b l currentPage with
    | none => none
    | some leaders =>
      if h : 0 ≤ offset ∧ offset.toNat < leaders.length then
        let u := leaders.get ⟨offset.toNat, h.2⟩
        if u.Rank = position then some u else some User.zero
      else none
  else some User.zero

/-- go: `FlushDB`: issues FLUSHALL, which empties every database of the
backend — every key of every leaderboard, not only `l.Name`. -/
def FlushDB (b : Backend) (l : Leaderboard) : Backend :=
  fun _ => ZSet.empty

/-! ## Leaderboard operation sequences (for the rank-density invariant) -/

/-- One mutating call of the public API. -/
inductive LBOp
  | rank (id : Nat) (score : Int)
  | remove (id : Nat)

/-- The backend state effect of one mutating call. -/
def applyOp (l : Leaderboard) (b : Backend) : LBOp → Backend
  | .rank id s => (RankMember b l id s).2
  | .remove id => (RemoveMember b l id).2

/-- The backend reached from an empty backend by a sequence of
`RankMember` / `RemoveMember` calls. -/
def applyOps (l : Leaderboard) (ops : List LBOp) : Backend :=
  ops.foldl (applyOp l) (fun _ => ZSet.empty)

/-- Exact integer ceiling division, the page count the specification
prescribes (`ceil(Count() / pageSize)` computed over the integers). -/
def ceilDivNat (n k : Nat) : Nat := (n + k - 1) / k

/-! ## Rank counting: `rankCount` is monotone in the ZREVRANGE order and
enumerates `{0, ..., Count()-1}` bijectively. -/

theorem rankCount_lt_card {z : ZSet} {m : Nat} (hm : m ∈ z.members) :
    rankCount z m < z.members.card := by
  have hsub : z.members.filter (fun a => revBefore z a m) ⊆ z.members.erase m := by
    intro x hx
    rcases Finset.mem_filter.mp hx with ⟨hx1, hx2⟩
    refine Finset.mem_erase.mpr ⟨?_, hx1⟩
    rintro rfl
    exact revBefore_irrefl z _ hx2
  calc rankCount z m ≤ (z.members.erase m).card := Finset.card_le_card hsub
    _ < z.members.card := Finset.card_erase_lt_of_mem hm

theorem rankCount_lt_rankCount {z : ZSet} {a b : Nat} (ha : a ∈ z.members) (hb : b ∈ z.members)
    (hab : revBefore z a b) : rankCount z a < rankCount z b := by
  have hsub : z.members.filter (fun x => revBefore z x a) ⊆
      z.members.filter (fun x => revBefore z x b) := by
    intro x hx
    rcases Finset.mem_filter.mp hx with ⟨hx1, hx2⟩
    exact Finset.mem_filter.mpr ⟨hx1, revBefore_trans z hx2 hab⟩
  have hss : z.members.filter (fun x => revBefore z x a) ⊂
      z.members.filter (fun x => revBefore z x b) := by
    refine (Finset.ssubset_iff_of_subset hsub).mpr ⟨a, ?_, ?_⟩
    · exact Finset.mem_filter.mpr ⟨ha, hab⟩
    · intro hmem
      exact revBefore_irrefl z a (Finset.mem_filter.mp hmem).2
  exact Finset.card_lt_card hss

theorem revBefore_iff_rankCount {z : ZSet} {a b : Nat} (ha : a ∈ z.members)
    (hb : b ∈ z.members) : revBefore z a b ↔ rankCount z a < rankCount z b := by
  constructor
  · exact rankCount_lt_rankCount ha hb
  · intro h
    by_cases hab : a = b
    · subst hab
      exact absurd h (lt_irrefl _)
    · rcases revBefore_total z hab with h2 | h2
      · exact h2
      · exact absurd (rankCount_lt_rankCount hb ha h2) (by omega)

theorem rankCount_injOn (z : ZSet) {a b : Nat} (ha : a ∈ z.members) (hb : b ∈ z.members)
    (h : rankCount z a = rankCount z b) : a = b := by
  by_contra hab
  rcases revBefore_total z hab with h2 | h2
  · exact absurd (rankCount_lt_rankCount ha hb h2) (by omega)
  · exact absurd (rankCount_lt_rankCount hb ha h2) (by omega)

theorem image_rankCount (z : ZSet) :
    z.members.image (rankCount z) = Finset.range z.members.card := by
  apply Finset.eq_of_subset_of_card_le
  · intro j hj
    rcases Finset.mem_image.mp hj with ⟨m, hm, rfl⟩
    exact Finset.mem_range.mpr (rankCount_lt_card hm)
  · rw [Finset.card_range,
      Finset.card_image_of_injOn (fun a ha b hb h => rankCount_injOn z ha hb h)]

/-! ## The sorted member list: `zlist` agrees with `rankCount` -/

theorem zlist_coe (z : ZSet) : (zlist z : Multiset Nat) = z.members.val := by
  obtain ⟨l, hl⟩ := Quotient.exists_rep z.members.val
  have h2 : zlist z = List.insertionSort (revLe z) l := by
    rw [zlist, ← hl]
    rfl
  rw [h2, ← hl]
  exact Multiset.coe_eq_coe.mpr (List.perm_insertionSort _ l)

theorem zlist_sorted (z : ZSet) : (zlist z).Sorted (revLe z) := by
  obtain ⟨l, hl⟩ := Quotient.exists_rep z.members.val
  have h2 : zlist z = List.insertionSort (revLe z) l := by
    rw [zlist, ← hl]
    rfl
  rw [h2]
  exact List.sorted_insertionSort _ l

theorem mem_zlist {z : ZSet} {a : Nat} : a ∈ zlist z ↔ a ∈ z.members := by
  have := zlist_coe z
  constructor
  · intro h
    exact (this ▸ (Multiset.mem_coe.mpr h) : a ∈ z.members.val)
  · intro h
    exact Multiset.mem_coe.mp (this ▸ (h : a ∈ z.members.val))

theorem zlist_length (z : ZSet) : (zlist z).length = z.members.card := by
  have := congrArg Multiset.card (zlist_coe z)
  simpa using this

theorem zlist_nodup (z : ZSet) : (zlist z).Nodup := by
  have h := z.members.nodup
  rw [← zlist_coe z] at h
  exact Multiset.coe_nodup.mp h

/-- The bridge between the two rank views: the element at 0-based position
`i` of the ZREVRANGE order has exactly `i` members strictly before it, so
its ZREVRANK is `i`. -/
theorem rankCount_zlist_get (z : ZSet) (i : Fin (zlist z).length) :
    rankCount z ((zlist z).get i) = i := by
  have hset : z.members.filter (fun a => revBefore z a ((zlist z).get i)) =
      (Finset.range i).image (fun j => (zlist z).getD j 0) := by
    ext x
    constructor
    · intro hx
      rcases Finset.mem_filter.mp hx with ⟨hx1, hx2⟩
      obtain ⟨j, hj⟩ := List.mem_iff_get.mp (mem_zlist.mpr hx1)
      have hji : (j : Nat) < (i : Nat) := by
        rcases lt_trichotomy (j : Nat) (i : Nat) with h | h | h
        · exact h
        · exfalso
          have : x = (zlist z).get i := by rw [← hj]; congr 1; exact Fin.ext h
          exact revBefore_irrefl z _ (this ▸ hx2)
        · exfalso
          have hle : revLe z ((zlist z).get i) ((zlist z).get j) :=
            (zlist_sorted z).rel_get_of_lt h
          rcases hle with hlt | heq
          · exact revBefore_asymm z hx2 (hj ▸ hlt)
          · have : i = j := (List.Nodup.get_inj_iff (zlist_nodup z)).mp heq
            omega
      refine Finset.mem_image.mpr ⟨j, Finset.mem_range.mpr hji, ?_⟩
      rw [List.getD_eq_getElem _ _ j.isLt, ← hj]
      rfl
    · intro hx
      rcases Finset.mem_image.mp hx with ⟨j, hj, rfl⟩
      have hji : j < (i : Nat) := Finset.mem_range.mp hj
      have hjlen : j < (zlist z).length := lt_trans hji i.isLt
      rw [List.getD_eq_getElem _ _ hjlen]
      refine Finset.mem_filter.mpr ⟨?_, ?_⟩
      · exact mem_zlist.mp (List.getElem_mem hjlen)
      · have hle : revLe z ((zlist z).get ⟨j, hjlen⟩) ((zlist z).get i) :=
          (zlist_sorted z).rel_get_of_lt hji
        rcases hle with hlt | heq
        · exact hlt
        · exfalso
          have : (⟨j, hjlen⟩ : Fin (zlist z).length) = i :=
            (List.Nodup.get_inj_iff (zlist_nodup z)).mp heq
          have : j = (i : Nat) := congrArg Fin.val this
          omega
  rw [rankCount, hset, Finset.card_image_of_injOn, Finset.card_range]
  intro a ha b hb hab
  have ha2 : a < (zlist z).length := lt_trans (Finset.mem_range.mp (Finset.mem_coe.mp ha)) i.isLt
  have hb2 : b < (zlist z).length := lt_trans (Finset.mem_range.mp (Finset.mem_coe.mp hb)) i.isLt
  have hab2 : (zlist z).getD a 0 = (zlist z).getD b 0 := hab
  rw [List.getD_eq_getElem _ _ ha2, List.getD_eq_getElem _ _ hb2] at hab2
  have := (List.Nodup.get_inj_iff (zlist_nodup z)).mp
    (hab2 : (zlist z).get ⟨a, ha2⟩ = (zlist z).get ⟨b, hb2⟩)
  exact congrArg Fin.val this

/-! ## The fetched window of `getMembersByRange` in closed form -/

/-- The members a window request actually fetches (ranks `s0+1` to
`s0+ps`, 0-based offsets `s0` to `s0+ps-1`), already wrapped as users.
This is the reference shape the lemmas below rewrite `getMembersByRange`
into; it is not itself part of the Go code. -/
def windowUsers (z : ZSet) (s0 ps : Nat) : List User :=
  (((zlist z).drop s0).take ps).map (fun pid =>
    { PlayerID := pid, Score := z.score pid, Rank := (rankCount z pid : Int) + 1 })

theorem redisSlice_eq (L : List Nat) (s0 ps : Nat) (hps : 1 ≤ ps) :
    redisSlice L (s0 : Int) ((s0 : Int) + (ps : Int) - 1) = (L.drop s0).take ps := by
  rw [redisSlice]
  have h1 : ¬ ((s0 : Int) < 0) := by omega
  have h2 : ¬ ((s0 : Int) + (ps : Int) - 1 < 0) := by omega
  simp only [h1, h2, if_false]
  by_cases h3 : (L.length : Int) ≤ (s0 : Int)
  · have : L.length ≤ s0 := by omega
    simp only [if_pos (Or.inr h3), List.drop_eq_nil_of_le this, List.take_nil]
  · have hcond : ¬ ((s0 : Int) > (s0 : Int) + (ps : Int) - 1 ∨ (L.length : Int) ≤ (s0 : Int)) := by
      omega
    rw [if_neg hcond]
    have he : ((s0 : Int) + (ps : Int) - 1).toNat = s0 + ps - 1 := by omega
    have hs : ((s0 : Int)).toNat = s0 := by omega
    rw [he, hs]
    congr 1
    omega

theorem zrevrange_eq (z : ZSet) (s0 ps : Nat) (hps : 1 ≤ ps) :
    zrevrange z (s0 : Int) ((s0 : Int) + (ps : Int) - 1) = ((zlist z).drop s0).take ps := by
  rw [zrevrange, redisSlice_eq _ _ _ hps]

theorem getMembersByRange_spec (b : Backend) (name : String) (s0 ps : Nat) (hps : 1 ≤ ps) :
    getMembersByRange b name (ps : Int) (s0 : Int) ((s0 : Int) + (ps : Int) - 1) =
      some (windowUsers (b name) s0 ps ++
        List.replicate (ps - (windowUsers (b name) s0 ps).length) User.zero) := by
  rw [getMembersByRange]
  have hmap : (zrevrange (b name) (s0 : Int) ((s0 : Int) + (ps : Int) - 1)).map (fun pid =>
      { PlayerID := pid, Score := (b name).score pid,
        Rank := redisRankInt (b name) pid + 1 : User }) = windowUsers (b name) s0 ps := by
    rw [zrevrange_eq _ _ _ hps, windowUsers]
    refine List.map_congr_left (fun a ha => ?_)
    have hmem : a ∈ (b name).members := by
      have h1 : a ∈ (zlist (b name)).drop s0 := List.take_subset _ _ ha
      exact mem_zlist.mp (List.drop_subset _ _ h1)
    simp [redisRankInt, zrevrank, hmem]
  rw [hmap]
  have hlen : (windowUsers (b name) s0 ps).length ≤ ((ps : Int)).toNat := by
    simp only [windowUsers, List.length_map, Int.toNat_natCast]
    exact le_trans (List.length_take_le _ _) le_rfl
  rw [if_pos ⟨by omega, hlen⟩]
  simp only [Int.toNat_natCast]

theorem windowUsers_length (z : ZSet) (s0 ps : Nat) :
    (windowUsers z s0 ps).length = min ps (z.members.card - s0) := by
  simp [windowUsers, zlist_length]

theorem windowUsers_get (z : ZSet) (s0 ps : Nat) (i : Nat)
    (hi : i < (windowUsers z s0 ps).length) :
    ∃ h2 : s0 + i < (zlist z).length,
      (windowUsers z s0 ps).get ⟨i, hi⟩ =
        { PlayerID := (zlist z).get ⟨s0 + i, h2⟩,
          Score := z.score ((zlist z).get ⟨s0 + i, h2⟩),
          Rank := (s0 : Int) + (i : Int) + 1 } := by
  have hlen := windowUsers_length z s0 ps
  have h2 : s0 + i < (zlist z).length := by
    rw [hlen] at hi
    rw [zlist_length]
    omega
  refine ⟨h2, ?_⟩
  have hi2 : i < (((zlist z).drop s0).take ps).length := by
    simpa [windowUsers] using hi
  have hi3 : i < ((zlist z).drop s0).length := by
    simp only [List.length_take] at hi2
    omega
  have hget : (((zlist z).drop s0).take ps).get ⟨i, hi2⟩ = (zlist z).get ⟨s0 + i, h2⟩ := by
    show (((zlist z).drop s0).take ps)[i] = (zlist z)[s0 + i]
    rw [List.getElem_take, List.getElem_drop]
  have hrank : rankCount z ((zlist z).get ⟨s0 + i, h2⟩) = s0 + i :=
    rankCount_zlist_get z ⟨s0 + i, h2⟩
  have hcast : ((s0 + i : Nat) : Int) + 1 = (s0 : Int) + (i : Int) + 1 := by
    push_cast
    ring
  unfold windowUsers at hi ⊢
  rw [List.get_map]
  have hfin : (((zlist z).drop s0).take ps).get ⟨i, hi2⟩ = (zlist z).get ⟨s0 + i, h2⟩ := hget
  simp only [hfin, hrank, hcast]

theorem windowUsers_rank (z : ZSet) (s0 ps : Nat) (i : Nat)
    (hi : i < (windowUsers z s0 ps).length) :
    ((windowUsers z s0 ps).get ⟨i, hi⟩).Rank = (s0 : Int) + (i : Int) + 1 := by
  obtain ⟨h2, he⟩ := windowUsers_get z s0 ps i hi
  rw [he]

/-- A stored member with 0-based rank `idx` appears in every fetched window
whose offsets cover `idx`. -/
theorem mem_windowUsers (z : ZSet) (s0 ps : Nat) {m : Nat} (hm : m ∈ z.members)
    (hlo : s0 ≤ rankCount z m) (hhi : rankCount z m < s0 + ps) :
    ∃ u ∈ windowUsers z s0 ps, u.PlayerID = m ∧ u.Rank = (rankCount z m : Int) + 1 := by
  have hidxlen : rankCount z m < (zlist z).length := by
    rw [zlist_length]
    exact rankCount_lt_card hm
  have hi : rankCount z m - s0 < (windowUsers z s0 ps).length := by
    rw [windowUsers_length]
    rw [zlist_length] at hidxlen
    omega
  obtain ⟨h2, he⟩ := windowUsers_get z s0 ps (rankCount z m - s0) hi
  have hmem : (zlist z).get ⟨s0 + (rankCount z m - s0), h2⟩ = m := by
    apply rankCount_injOn z (mem_zlist.mp (List.get_mem _ _ _)) hm
    rw [rankCount_zlist_get z ⟨s0 + (rankCount z m - s0), h2⟩]
    show s0 + (rankCount z m - s0) = rankCount z m
    omega
  refine ⟨(windowUsers z s0 ps).get ⟨rankCount z m - s0, hi⟩, List.get_mem _ _ _, ?_, ?_⟩
  · rw [he, hmem]
  · rw [he]
    show (s0 : Int) + ((rankCount z m - s0 : Nat) : Int) + 1 = (rankCount z m : Int) + 1
    rw [Nat.cast_sub hlo]
    ring

/-! ## Normal forms of the public query functions -/

theorem GetMember_mem (b : Backend) (l : Leaderboard) {id : Nat}
    (hm : id ∈ (b l.Name).members) :
    GetMember b l id =
      { PlayerID := id, Score := (b l.Name).score id,
        Rank := (rankCount (b l.Name) id : Int) + 1 } := by
  simp [GetMember, redisRankInt, redisScoreInt, zrevrank, zscore, hm]

theorem GetMember_absent (b : Backend) (l : Leaderboard) {id : Nat}
    (hm : id ∉ (b l.Name).members) :
    GetMember b l id = { PlayerID := id, Score := 0, Rank := 1 } := by
  simp [GetMember, redisRankInt, redisScoreInt, zrevrank, zscore, hm]

theorem GetRank_mem (b : Backend) (l : Leaderboard) {id : Nat}
    (hm : id ∈ (b l.Name).members) :
    GetRank b l id = (rankCount (b l.Name) id : Int) + 1 := by
  simp [GetRank, redisRankInt, zrevrank, hm]

theorem getMembersByRange_window (b : Backend) (name : String) (ps S : Int) (psn sn : Nat)
    (hps : (psn : Int) = ps) (hS : (sn : Int) = S) (h1 : 1 ≤ psn) :
    getMembersByRange b name ps S (S + ps - 1) =
      some (windowUsers (b name) sn psn ++
        List.replicate (psn - (windowUsers (b name) sn psn).length) User.zero) := by
  subst hps
  subst hS
  exact getMembersByRange_spec b name sn psn h1

theorem exists_window (b : Backend) (name : String) (ps S : Int) (hS : 0 ≤ S)
    (hps : 1 ≤ ps) :
    ∃ s0 : Nat, getMembersByRange b name ps S (S + ps - 1) =
      some (windowUsers (b name) s0 ps.toNat ++
        List.replicate (ps.toNat - (windowUsers (b name) s0 ps.toNat).length) User.zero) :=
  ⟨S.toNat, getMembersByRange_window b name ps S ps.toNat S.toNat (by omega) (by omega) (by omega)⟩

/-- Go `/ 2` on a nonnegative int agrees with Nat division. -/
theorem tdiv_two_cast (a : Nat) : Int.tdiv (a : Int) 2 = ((a / 2 : Nat) : Int) := rfl

theorem GetLeaders_window (b : Backend) (l : Leaderboard) (page : Int)
    (hps : 1 ≤ l.PageSize) :
    ∃ s0 : Nat, GetLeaders b l page =
      some (windowUsers (b l.Name) s0 l.PageSize.toNat ++
        List.replicate (l.PageSize.toNat - (windowUsers (b l.Name) s0 l.PageSize.toNat).length)
          User.zero) := by
  simp only [GetLeaders]
  apply exists_window
  · split <;> omega
  · exact hps

theorem GetAroundMe_window (b : Backend) (l : Leaderboard) (playerID : Nat)
    (hps : 1 ≤ l.PageSize) :
    ∃ s0 : Nat, GetAroundMe b l playerID =
      some (windowUsers (b l.Name) s0 l.PageSize.toNat ++
        List.replicate (l.PageSize.toNat - (windowUsers (b l.Name) s0 l.PageSize.toNat).length)
          User.zero) := by
  simp only [GetAroundMe]
  apply exists_window
  · split <;> omega
  · exact hps

/-- `GetAroundMe` of a stored member fetches 0-based offsets starting at
`rank - PageSize/2` where `rank` is the member's 1-based rank: one past
the offset the specification's window formula names. -/
theorem GetAroundMe_mem_eq (b : Backend) (l : Leaderboard) {id : Nat}
    (hps : 1 ≤ l.PageSize) (hm : id ∈ (b l.Name).members) :
    GetAroundMe b l id =
      some (windowUsers (b l.Name) (rankCount (b l.Name) id + 1 - l.PageSize.toNat / 2)
          l.PageSize.toNat ++
        List.replicate (l.PageSize.toNat -
          (windowUsers (b l.Name) (rankCount (b l.Name) id + 1 - l.PageSize.toNat / 2)
            l.PageSize.toNat).length) User.zero) := by
  have hcast : ((l.PageSize.toNat : Nat) : Int) = l.PageSize := by omega
  simp only [GetAroundMe, GetMember_mem b l hm]
  rw [← hcast, tdiv_two_cast]
  apply getMembersByRange_window b l.Name _ _ _ _ rfl _ (by omega)
  split
  · rename_i h
    omega
  · rename_i h
    omega

/-- `GetAroundMe` of an id that is not stored treats it as the rank-1
member (the swallowed ZREVRANK error) and serves the top window. -/
theorem GetAroundMe_absent_eq (b : Backend) (l : Leaderboard) {id : Nat}
    (hps : 2 ≤ l.PageSize) (hm : id ∉ (b l.Name).members) :
    GetAroundMe b l id =
      some (windowUsers (b l.Name) 0 l.PageSize.toNat ++
        List.replicate (l.PageSize.toNat -
          (windowUsers (b l.Name) 0 l.PageSize.toNat).length) User.zero) := by
  have hcast : ((l.PageSize.toNat : Nat) : Int) = l.PageSize := by omega
  simp only [GetAroundMe, GetMember_absent b l hm]
  rw [← hcast, tdiv_two_cast]
  apply getMembersByRange_window b l.Name _ _ _ _ rfl _ (by omega)
  split
  · rename_i h
    omega
  · rename_i h
    omega

/-! ## Density of ranks and the shape of every fetched page -/

theorem ranks_dense (b : Backend) (l : Leaderboard) :
    Finset.image (fun m => GetRank b l m) (b l.Name).members =
      Finset.Icc (1 : Int) (TotalMembers b l) := by
  ext k
  simp only [Finset.mem_image, Finset.mem_Icc, TotalMembers, zcard]
  constructor
  · rintro ⟨m, hm, rfl⟩
    rw [GetRank_mem b l hm]
    have := rankCount_lt_card hm
    omega
  · rintro ⟨h1, h2⟩
    have hmem : (k - 1).toNat ∈ Finset.range (b l.Name).members.card := by
      simp only [Finset.mem_range]
      omega
    rw [← image_rankCount] at hmem
    rcases Finset.mem_image.mp hmem with ⟨m, hm, hrc⟩
    refine ⟨m, hm, ?_⟩
    rw [GetRank_mem b l hm, hrc]
    omega

theorem window_shape (b : Backend) (name : String) (ps S : Int) (hS : 0 ≤ S) (hps : 1 ≤ ps) :
    ∃ lu, getMembersByRange b name ps S (S + ps - 1) = some lu ∧ lu.length = ps.toNat ∧
      ∃ k, k ≤ ps.toNat ∧ List.drop k lu = List.replicate (ps.toNat - k) User.zero := by
  obtain ⟨s0, h⟩ := exists_window b name ps S hS hps
  have hlen := windowUsers_length (b name) s0 ps.toNat
  refine ⟨_, h, ?_, ?_⟩
  · rw [List.length_append, List.length_replicate]
    omega
  · refine ⟨(windowUsers (b name) s0 ps.toNat).length, by omega, ?_⟩
    rw [List.drop_left]

/-! ## Concrete fixtures used by the claim-level theorems -/

/-- A leaderboard named "alpha" with page size 10. -/
def lb10 : Leaderboard := ⟨"alpha", 10⟩

/-- A leaderboard named "alpha" with page size 2. -/
def lb2 : Leaderboard := ⟨"alpha", 2⟩

/-- A leaderboard named "alpha" with page size 1. -/
def lb1 : Leaderboard := ⟨"alpha", 1⟩

/-- A backend with every key empty. -/
def bEmpty : Backend := fun _ => ZSet.empty

/-- A single member 7 with score 0 (a genuine rank-1, score-0 member). -/
def zZero7 : ZSet := ⟨{7}, fun _ => 0⟩

/-- Backend holding `zZero7` under every key. -/
def bZero7 : Backend := fun _ => zZero7

/-- Two members 1 and 2 with the same score 100. -/
def zTie : ZSet := ⟨{1, 2}, fun _ => 100⟩

/-- Backend holding `zTie` under every key. -/
def bTie : Backend := fun _ => zTie

/-- Members 1..4 with scores 100, 90, 80, 70 (ranks 1..4). -/
def z4 : ZSet :=
  ⟨{1, 2, 3, 4}, fun n => if n = 1 then 100 else if n = 2 then 90 else if n = 3 then 80 else 70⟩

/-- Backend holding `z4` under every key. -/
def b4 : Backend := fun _ => z4

/-- A backend with a member in the namespace "beta" and nothing elsewhere. -/
def bTwoNames : Backend := fun n => if n = "beta" then zZero7 else ZSet.empty

/-- A store with 2^53 + 1 members (all score 0): one past the largest
integer float64 represents exactly. -/
def bBig : Backend := fun _ => ⟨Finset.range (2 ^ 53 + 1), fun _ => 0⟩

/-! ## C1 -/

/-- Claim C1 (code bug).  The claim says a failed or absent `GetMember`
lookup is reported `found = false` and never silently mapped to a
zero-value member.  The code has no found flag: on the empty store,
`GetMember 7` swallows both nil replies and returns the placeholder
`{7, 0, 1}` — byte-for-byte the same user it returns when 7 really is
stored with score 0 at rank 1. -/
theorem c1_theorem :
    7 ∉ (bEmpty lb10.Name).members ∧ 7 ∈ (bZero7 lb10.Name).members ∧
    GetMember bEmpty lb10 7 = { PlayerID := 7, Score := 0, Rank := 1 } ∧
    GetMember bEmpty lb10 7 = GetMember bZero7 lb10 7 := by decide

/-! ## C2 -/

/-- Claim C2 (code bug).  The claim says `GetMemberByRank` returns
not-found for `position < 1`.  The code only checks
`position <= TotalMembers()`; at `position = 0` the within-page offset is
`(0-1) % PageSize = -1` and `leaders[-1]` is a Go runtime panic (modelled
as `none`), on the empty store and on a populated one alike. -/
theorem c2_theorem :
    GetMemberByRank bEmpty lb10 0 = none ∧ GetMemberByRank b4 lb2 0 = none := by decide

/-! ## C3 -/

/-- Claim C3 (code bug).  The claim (and the spec) say `GetLeaders` on an
empty leaderboard returns an empty sequence for every page.  The code
allocates `make([]User, pageSize)` and returns the whole slice, so the
empty store yields `PageSize` zero-value users instead. -/
theorem c3_theorem :
    zcard (bEmpty lb10.Name) = 0 ∧
    GetLeaders bEmpty lb10 1 = some (List.replicate 10 User.zero) ∧
    GetLeaders bEmpty lb10 7 = some (List.replicate 10 User.zero) := by decide

/-! ## C4 -/

/-- Claim C4, counterexample.  Members 1..4 with scores 100..70, page size
2, query id 3 (rank 3): the claim's window starts at `max(1, 3 - 2/2) = 2`,
but the code returns the users of ranks 3 and 4 — no rank-2 entry.  With
page size 1 the returned window [rank 4] does not even contain id 3.  And
for the absent id 9 the call does not fail with not-found: it returns the
top-of-board window. -/
theorem c4_counterexample :
    GetRank b4 lb2 3 = 3 ∧
    GetAroundMe b4 lb2 3 =
      some [{ PlayerID := 3, Score := 80, Rank := 3 }, { PlayerID := 4, Score := 70, Rank := 4 }] ∧
    (max 1 (3 - Int.tdiv lb2.PageSize 2) : Int) = 2 ∧
    (∀ u ∈ [({ PlayerID := 3, Score := 80, Rank := 3 } : User),
        { PlayerID := 4, Score := 70, Rank := 4 }], u.Rank ≠ 2) ∧
    GetAroundMe b4 lb1 3 = some [{ PlayerID := 4, Score := 70, Rank := 4 }] ∧
    9 ∉ (b4 lb2.Name).members ∧
    GetAroundMe b4 lb2 9 =
      some [{ PlayerID := 1, Score := 100, Rank := 1 },
        { PlayerID := 2, Score := 90, Rank := 2 }] := by decide

/-- Claim C4, amended.  For page size ≥ 2: a stored member with 1-based
rank `r = rankCount + 1` gets the window of ranks starting at
`max(1, r - PageSize/2 + 1)` — one past the start the claim names —
padded to `PageSize` entries with zero users, and that window does contain
the member itself with its true rank.  An id that is not stored is not
reported as not-found: it is treated as having rank 1 (the swallowed
ZREVRANK error) and the top window is returned. -/
theorem c4_theorem (b : Backend) (l : Leaderboard) (playerID : Nat) (hps : 2 ≤ l.PageSize) :
    (playerID ∈ (b l.Name).members →
      ∃ front, GetAroundMe b l playerID =
          some (front ++ List.replicate (l.PageSize.toNat - front.length) User.zero) ∧
        front = windowUsers (b l.Name)
          (rankCount (b l.Name) playerID + 1 - l.PageSize.toNat / 2) l.PageSize.toNat ∧
        (∀ i (hi : i < front.length), (front.get ⟨i, hi⟩).Rank =
          ((rankCount (b l.Name) playerID + 1 - l.PageSize.toNat / 2 : Nat) : Int) + i + 1) ∧
        ∃ u ∈ front, u.PlayerID = playerID ∧ u.Rank = GetRank b l playerID) ∧
    (playerID ∉ (b l.Name).members →
      ∃ front, GetAroundMe b l playerID =
          some (front ++ List.replicate (l.PageSize.toNat - front.length) User.zero) ∧
        front = windowUsers (b l.Name) 0 l.PageSize.toNat ∧
        (∀ i (hi : i < front.length), (front.get ⟨i, hi⟩).Rank = (i : Int) + 1)) := by
  constructor
  · intro hm
    refine ⟨_, GetAroundMe_mem_eq b l (by omega) hm, rfl, ?_, ?_⟩
    · intro i hi
      exact windowUsers_rank (b l.Name)
        (rankCount (b l.Name) playerID + 1 - l.PageSize.toNat / 2) l.PageSize.toNat i hi
    · have hps2 : 2 ≤ l.PageSize.toNat := by omega
      have hlo : rankCount (b l.Name) playerID + 1 - l.PageSize.toNat / 2 ≤
          rankCount (b l.Name) playerID := by omega
      have hhi : rankCount (b l.Name) playerID <
          (rankCount (b l.Name) playerID + 1 - l.PageSize.toNat / 2) + l.PageSize.toNat := by
        omega
      obtain ⟨u, hu, h1, h2⟩ := mem_windowUsers (b l.Name)
        (rankCount (b l.Name) playerID + 1 - l.PageSize.toNat / 2) l.PageSize.toNat hm hlo hhi
      exact ⟨u, hu, h1, by rw [h2, GetRank_mem b l hm]⟩
  · intro hm
    refine ⟨_, GetAroundMe_absent_eq b l hps hm, rfl, ?_⟩
    intro i hi
    have := windowUsers_rank (b l.Name) 0 l.PageSize.toNat i hi
    rw [this]
    push_cast
    ring

/-- Witness for the amended C4 at a concrete input: backend `b4`,
page size 2, member 3. -/
theorem c4_witness :
    2 ≤ lb2.PageSize ∧ 3 ∈ (b4 lb2.Name).members ∧
    (∃ front, GetAroundMe b4 lb2 3 =
        some (front ++ List.replicate (lb2.PageSize.toNat - front.length) User.zero) ∧
      front = windowUsers (b4 lb2.Name)
        (rankCount (b4 lb2.Name) 3 + 1 - lb2.PageSize.toNat / 2) lb2.PageSize.toNat ∧
      (∀ i (hi : i < front.length), (front.get ⟨i, hi⟩).Rank =
        ((rankCount (b4 lb2.Name) 3 + 1 - lb2.PageSize.toNat / 2 : Nat) : Int) + i + 1) ∧
      ∃ u ∈ front, u.PlayerID = 3 ∧ u.Rank = GetRank b4 lb2 3) :=
  ⟨by decide, by decide, (c4_theorem b4 lb2 3 (by decide)).1 (by decide)⟩

/-! ## C5 -/

/-- Claim C5, counterexample.  `RemoveMember` reports no `found = false`
for an absent id: the report for removing the absent id 7 from the empty
store is identical to the report for removing the genuinely stored
rank-1 member 7 (and the ZREM error is nil in both cases), so the two
outcomes are indistinguishable to the caller. -/
theorem c5_counterexample :
    7 ∉ (bEmpty lb10.Name).members ∧ 7 ∈ (bZero7 lb10.Name).members ∧
    (RemoveMember bEmpty lb10 7).1 = (RemoveMember bZero7 lb10 7).1 := by decide

/-- Claim C5, amended.  Removing an id that is not stored is a no-op on
the backend (so `Count()` is unchanged and membership is untouched), but
it is not reported via `found = false`: the call returns the placeholder
user `{id, 0, 1}` produced by the swallowed `GetMember` lookup, with a
nil error. -/
theorem c5_theorem (b : Backend) (l : Leaderboard) (id : Nat)
    (hm : id ∉ (b l.Name).members) :
    (RemoveMember b l id).1 = { PlayerID := id, Score := 0, Rank := 1 } ∧
    (RemoveMember b l id).2 = b ∧
    TotalMembers (RemoveMember b l id).2 l = TotalMembers b l := by
  have hz : zrem (b l.Name) id = b l.Name := by
    rw [zrem, Finset.erase_eq_of_not_mem hm]
  have hb2 : (RemoveMember b l id).2 = b := by
    show Function.update b l.Name (zrem (b l.Name) id) = b
    rw [hz]
    exact Function.update_eq_self l.Name b
  refine ⟨?_, hb2, by rw [hb2]⟩
  show GetMember b l id = _
  rw [GetMember_absent b l hm]

/-- Witness for the amended C5: removing the absent id 7 from the empty
backend. -/
theorem c5_witness :
    7 ∉ (bEmpty lb10.Name).members ∧
    ((RemoveMember bEmpty lb10 7).1 = { PlayerID := 7, Score := 0, Rank := 1 } ∧
      (RemoveMember bEmpty lb10 7).2 = bEmpty ∧
      TotalMembers (RemoveMember bEmpty lb10 7).2 lb10 = TotalMembers bEmpty lb10) :=
  ⟨by decide, c5_theorem bEmpty lb10 7 (by decide)⟩

/-! ## C6 -/

/-- Claim C6, counterexample.  `FlushDB` issues FLUSHALL: flushing the
leaderboard "alpha" also empties the unrelated namespace "beta", whose
member 7 disappears — the claim's frame condition fails. -/
theorem c6_counterexample :
    lb10.Name = "alpha" ∧ 7 ∈ (bTwoNames "beta").members ∧
    7 ∉ (FlushDB bTwoNames lb10 "beta").members := by decide

/-- Claim C6, amended.  The clear operation empties every namespace of
the backend (Redis FLUSHALL), not only the leaderboard's own named store;
it is idempotent. -/
theorem c6_theorem (b : Backend) (l : Leaderboard) (name : String) :
    FlushDB b l name = ZSet.empty ∧ FlushDB (FlushDB b l) l = FlushDB b l :=
  ⟨rfl, rfl⟩

/-! ## C7 -/

/-- Claim C7, counterexample.  Members 1 and 2 with equal scores: Redis
breaks the tie by *descending* member string, so id 2 gets rank 1 and id 1
gets rank 2 — the opposite of the claim's ascending-ID tie-break
(`rankOf(A) < rankOf(B)` iff `idA < idB` fails at A = 1, B = 2). -/
theorem c7_counterexample :
    1 ∈ (bTie lb10.Name).members ∧ 2 ∈ (bTie lb10.Name).members ∧
    (bTie lb10.Name).score 1 = (bTie lb10.Name).score 2 ∧
    GetRank bTie lb10 1 = 2 ∧ GetRank bTie lb10 2 = 1 ∧
    ¬ (GetRank bTie lb10 1 < GetRank bTie lb10 2 ↔ (1 : Nat) < 2) := by decide

/-- Claim C7, amended.  For stored members A and B: a strictly higher
score still means a strictly better (smaller) rank, but equal scores are
ordered by *descending* bytewise comparison of the decimal member strings
(`decKeyLt B A`, i.e. B's rendering below A's), not by ascending numeric
id. -/
theorem c7_theorem (b : Backend) (l : Leaderboard) {A B : Nat}
    (hA : A ∈ (b l.Name).members) (hB : B ∈ (b l.Name).members) :
    ((b l.Name).score B < (b l.Name).score A → GetRank b l A < GetRank b l B) ∧
    ((b l.Name).score A = (b l.Name).score B →
      (GetRank b l A < GetRank b l B ↔ decKeyLt B A)) := by
  have hGA := GetRank_mem b l hA
  have hGB := GetRank_mem b l hB
  constructor
  · intro hs
    rw [hGA, hGB]
    have := rankCount_lt_rankCount hA hB (Or.inl hs)
    omega
  · intro hs
    rw [hGA, hGB]
    constructor
    · intro h
      have hlt : rankCount (b l.Name) A < rankCount (b l.Name) B := by omega
      rcases (revBefore_iff_rankCount hA hB).mpr hlt with h2 | ⟨-, h2⟩
      · rw [hs] at h2
        exact absurd h2 (lt_irrefl _)
      · exact h2
    · intro hk
      have := rankCount_lt_rankCount hA hB (Or.inr ⟨hs, hk⟩)
      omega

/-- Witness for the amended C7 at the tied pair A = 2, B = 1 of `bTie`. -/
theorem c7_witness :
    2 ∈ (bTie lb10.Name).members ∧ 1 ∈ (bTie lb10.Name).members ∧
    (((bTie lb10.Name).score 1 < (bTie lb10.Name).score 2 →
        GetRank bTie lb10 2 < GetRank bTie lb10 1) ∧
      ((bTie lb10.Name).score 2 = (bTie lb10.Name).score 1 →
        (GetRank bTie lb10 2 < GetRank bTie lb10 1 ↔ decKeyLt 1 2))) :=
  ⟨by decide, by decide, c7_theorem bTie lb10 (by decide) (by decide)⟩

/-! ## C8 -/

/-- Claim C8 (confirmed).  After any sequence of `RankMember` /
`RemoveMember` calls starting from an empty backend, the ranks the
leaderboard reports for its stored members are exactly
`{1, ..., TotalMembers()}`: 1-based, no duplicates, no gaps.  (The proof
goes through `ranks_dense`, which establishes the invariant for every
reachable — indeed every — store state.) -/
theorem c8_theorem (l : Leaderboard) (ops : List LBOp) :
    Finset.image (fun m => GetRank (applyOps l ops) l m) ((applyOps l ops) l.Name).members =
      Finset.Icc (1 : Int) (TotalMembers (applyOps l ops) l) :=
  ranks_dense (applyOps l ops) l

/-! ## C9 -/

/-- Claim C9 (code bug).  `TotalPages` computes
`int(math.Ceil(float64(count) / float64(pageSize)))`.  With
`count = 2^53 + 1` members and page size 1, `float64(2^53 + 1)` rounds to
`2^53` (ties to even), so the code reports `2^53` pages while the exact
integer ceiling is `2^53 + 1`.  The zero case the claim also names does
hold: an empty store yields 0 pages. -/
theorem c9_theorem :
    zcard (bBig lb1.Name) = 2 ^ 53 + 1 ∧
    TotalPages bBig lb1 = 2 ^ 53 ∧
    ceilDivNat (zcard (bBig lb1.Name)) lb1.PageSize.toNat = 2 ^ 53 + 1 ∧
    TotalPages bEmpty lb10 = 0 := by
  have hc : zcard (bBig lb1.Name) = 2 ^ 53 + 1 := by
    show (Finset.range (2 ^ 53 + 1)).card = 2 ^ 53 + 1
    exact Finset.card_range _
  refine ⟨hc, ?_, ?_, by decide⟩
  · show goCeilDiv (zcard (bBig lb1.Name) : Int) lb1.PageSize = 2 ^ 53
    rw [hc]
    decide
  · rw [hc]
    decide

/-! ## C10 -/

/-- Claim C10 (confirmed).  With a positive page size, every `GetLeaders`
and every `GetAroundMe` call returns (without panicking) a slice of length
exactly `PageSize` of the shape `front ++ replicate (PageSize - front.length)
User.zero`, where `front` is precisely the list of members actually found
in the requested rank window (`windowUsers`, each carrying its true score
and rank): the entries past the fetched members are zero-value users
rather than being omitted. -/
theorem c10_theorem (b : Backend) (l : Leaderboard) (page : Int) (playerID : Nat)
    (hps : 1 ≤ l.PageSize) :
    (∃ s0, GetLeaders b l page =
        some (windowUsers (b l.Name) s0 l.PageSize.toNat ++
          List.replicate
            (l.PageSize.toNat - (windowUsers (b l.Name) s0 l.PageSize.toNat).length)
            User.zero) ∧
      (windowUsers (b l.Name) s0 l.PageSize.toNat ++
        List.replicate
          (l.PageSize.toNat - (windowUsers (b l.Name) s0 l.PageSize.toNat).length)
          User.zero).length = l.PageSize.toNat) ∧
    (∃ s0, GetAroundMe b l playerID =
        some (windowUsers (b l.Name) s0 l.PageSize.toNat ++
          List.replicate
            (l.PageSize.toNat - (windowUsers (b l.Name) s0 l.PageSize.toNat).length)
            User.zero) ∧
      (windowUsers (b l.Name) s0 l.PageSize.toNat ++
        List.replicate
          (l.PageSize.toNat - (windowUsers (b l.Name) s0 l.PageSize.toNat).length)
          User.zero).length = l.PageSize.toNat) := by
  constructor
  · obtain ⟨s0, h⟩ := GetLeaders_window b l page hps
    refine ⟨s0, h, ?_⟩
    have := windowUsers_length (b l.Name) s0 l.PageSize.toNat
    rw [List.length_append, List.length_replicate]
    omega
  · obtain ⟨s0, h⟩ := GetAroundMe_window b l playerID hps
    refine ⟨s0, h, ?_⟩
    have := windowUsers_length (b l.Name) s0 l.PageSize.toNat
    rw [List.length_append, List.length_replicate]
    omega

/-- Witness for C10: page 1 and member 3 of `b4` with page size 2. -/
theorem c10_witness :
    1 ≤ lb2.PageSize ∧
    ((∃ s0, GetLeaders b4 lb2 1 =
        some (windowUsers (b4 lb2.Name) s0 lb2.PageSize.toNat ++
          List.replicate
            (lb2.PageSize.toNat - (windowUsers (b4 lb2.Name) s0 lb2.PageSize.toNat).length)
            User.zero) ∧
      (windowUsers (b4 lb2.Name) s0 lb2.PageSize.toNat ++
        List.replicate
          (lb2.PageSize.toNat - (windowUsers (b4 lb2.Name) s0 lb2.PageSize.toNat).length)
          User.zero).length = lb2.PageSize.toNat) ∧
    (∃ s0, GetAroundMe b4 lb2 3 =
        some (windowUsers (b4 lb2.Name) s0 lb2.PageSize.toNat ++
          List.replicate
            (lb2.PageSize.toNat - (windowUsers (b4 lb2.Name) s0 lb2.PageSize.toNat).length)
            User.zero) ∧
      (windowUsers (b4 lb2.Name) s0 lb2.PageSize.toNat ++
        List.replicate
          (lb2.PageSize.toNat - (windowUsers (b4 lb2.Name) s0 lb2.PageSize.toNat).length)
          User.zero).length = lb2.PageSize.toNat)) :=
  ⟨by decide, c10_theorem b4 lb2 1 3 (by decide)⟩

end GoLeaderboard
